import Mathlib

/-!
Verification of the geometry pipeline of `extract_letters_batch.py`
(SVG glyph extraction for a pen plotter).

The Python source is embedded shallowly:

* Real-number (Python `float`) arithmetic is modelled by `ℚ`.
* `math.cos`/`sin`/`tan` composed with `math.radians` are external library
  functions; the embedding abstracts them as an arbitrary `Trig` record of
  functions `ℚ → ℚ` (none of the verified claims depends on their values).
* Python's builtin `float(str)` conversion is likewise abstracted as an
  arbitrary `toNum : String → Option ℚ` (`none` models a raised
  `ValueError`); a concrete decimal model `pyFloat` is provided for
  evaluating the pipeline on concrete inputs.
* A raised exception is modelled by `Option`/`none` propagation.
* `math.hypot(dx, dy) > gap` is modelled by the equivalent comparison of
  squares `gap^2 < dx^2 + dy^2` (equivalent for the nonnegative thresholds
  the program uses), since `sqrt` leaves `ℚ`.
* The lxml element tree is modelled by the inductive `XNode`; parent
  traversal (`getparent`) is represented by passing each node's ancestor
  chain explicitly.
-/

namespace Plotter

/-- A 2-D point, Python `Tuple[float, float]`. -/
abbrev Pt : Type := ℚ × ℚ

/-! ## Affine utils (source lines 29–44) -/

/-- A 3×3 matrix as the Python list-of-lists `[[m00,m01,m02],[m10,m11,m12],[m20,m21,m22]]`. -/
structure Mat3 where
  m00 : ℚ
  m01 : ℚ
  m02 : ℚ
  m10 : ℚ
  m11 : ℚ
  m12 : ℚ
  m20 : ℚ
  m21 : ℚ
  m22 : ℚ
deriving DecidableEq, Repr

/-- Source `mat(a,b,c,d,e,f)`: SVG `matrix(a b c d e f)` as `[[a,c,e],[b,d,f],[0,0,1]]`. -/
def mat (a b c d e f : ℚ) : Mat3 :=
  ⟨a, c, e, b, d, f, 0, 0, 1⟩

/-- Source `I()`: the identity matrix. -/
def I : Mat3 := ⟨1, 0, 0, 0, 1, 0, 0, 0, 1⟩

/-- Source `mul(A, B)`: full 3×3 matrix product, exactly as the Python triple comprehension. -/
def mul (A B : Mat3) : Mat3 :=
  ⟨A.m00 * B.m00 + A.m01 * B.m10 + A.m02 * B.m20,
   A.m00 * B.m01 + A.m01 * B.m11 + A.m02 * B.m21,
   A.m00 * B.m02 + A.m01 * B.m12 + A.m02 * B.m22,
   A.m10 * B.m00 + A.m11 * B.m10 + A.m12 * B.m20,
   A.m10 * B.m01 + A.m11 * B.m11 + A.m12 * B.m21,
   A.m10 * B.m02 + A.m11 * B.m12 + A.m12 * B.m22,
   A.m20 * B.m00 + A.m21 * B.m10 + A.m22 * B.m20,
   A.m20 * B.m01 + A.m21 * B.m11 + A.m22 * B.m21,
   A.m20 * B.m02 + A.m21 * B.m12 + A.m22 * B.m22⟩

/-- Source `apply(M, x, y)`: apply the affine map (uses only the top two rows). -/
def apply (M : Mat3) (x y : ℚ) : Pt :=
  (M.m00 * x + M.m01 * y + M.m02, M.m10 * x + M.m11 * y + M.m12)

/-- The bottom row is `[0,0,1]` (true of every matrix the transform parser builds). -/
def affine (M : Mat3) : Prop := M.m20 = 0 ∧ M.m21 = 0 ∧ M.m22 = 1

/-! ## Transform-attribute parsing (source lines 45–74) -/

/-- Abstraction of `math.cos∘radians`, `math.sin∘radians`, `math.tan∘radians`. -/
structure Trig where
  cosd : ℚ → ℚ
  sind : ℚ → ℚ
  tand : ℚ → ℚ

/-- ASCII whitespace, Python's `\s` / `str.strip()` on the inputs considered. -/
def isWS (c : Char) : Bool :=
  c = ' ' ∨ c = '\t' ∨ c = '\n' ∨ c = '\r' ∨ c = '\x0b' ∨ c = '\x0c'

/-- A separator of `re.split(r'[ ,]+', ...)`. -/
def isSep (c : Char) : Bool := c = ' ' ∨ c = ','

/-- Python `str.strip()`: drop leading and trailing whitespace. -/
def pyStrip (s : List Char) : List Char :=
  ((s.dropWhile isWS).reverse.dropWhile isWS).reverse

/-- Split into maximal runs of non-separator characters (accumulator holds the
current run reversed); with the `if v` filter of the source this is exactly
`re.split(r'[ ,]+', ...)` minus empty strings. -/
def splitRunsAux : List Char → List Char → List (List Char)
  | [], acc => if acc.isEmpty then [] else [acc.reverse]
  | c :: cs, acc =>
    if isSep c then (if acc.isEmpty then [] else [acc.reverse]) ++ splitRunsAux cs []
    else splitRunsAux cs (c :: acc)

/-- The nonempty argument tokens of one operation:
`[v for v in re.split(r'[ ,]+', args.strip()) if v]`. -/
def tokenize (args : List Char) : List String :=
  (splitRunsAux (pyStrip args) []).map (fun l => String.mk l)

/-- Source `[float(v) for v in tokens]`: the first failing conversion raises. -/
def mapFloat (toNum : String → Option ℚ) : List String → Option (List ℚ)
  | [] => some []
  | tk :: tks =>
    match toNum tk with
    | none => none
    | some v => (mapFloat toNum tks).map (fun vs => v :: vs)

/-- The numeric value of one operation's argument list. -/
def parseVals (toNum : String → Option ℚ) (args : List Char) : Option (List ℚ) :=
  mapFloat toNum (tokenize args)

/-- Decimal value of a digit string. -/
def digitsToNat (l : List Char) : ℕ :=
  l.foldl (fun a c => a * 10 + (c.toNat - 48)) 0

/-- Unsigned decimal number: `digits`, `digits.digits`, `digits.` or `.digits`. -/
def pyFloatUnsigned (l : List Char) : Option ℚ :=
  let ip := l.takeWhile Char.isDigit
  match l.dropWhile Char.isDigit with
  | [] => if ip.isEmpty then none else some (digitsToNat ip : ℚ)
  | '.' :: frac =>
    if frac.all Char.isDigit ∧ ¬(ip.isEmpty ∧ frac.isEmpty) then
      some ((digitsToNat ip : ℚ) + (digitsToNat frac : ℚ) / (10 : ℚ) ^ frac.length)
    else none
  | _ => none

/-- Modelled from the spec: Python's builtin `float()` (an external builtin,
not part of this repository's code) restricted to plain signed decimal
literals; every other string raises `ValueError` (`none`). -/
def pyFloat (tk : String) : Option ℚ :=
  match tk.toList with
  | '-' :: rest => (pyFloatUnsigned rest).map (fun q => -q)
  | '+' :: rest => pyFloatUnsigned rest
  | l => pyFloatUnsigned l

/-- The six operation names of the regex
`(matrix|translate|scale|rotate|skewX|skewY)\s*\(([^)]*)\)`, in alternation order. -/
def txnNames : List String := ["matrix", "translate", "scale", "rotate", "skewX", "skewY"]

/-- One regex match attempt at the current position: an operation name,
optional whitespace, `(`, the argument text (no `)`), then `)`.
Returns the name, the argument characters and the remaining input. -/
def tryOp (s : List Char) : Option (String × List Char × List Char) :=
  match txnNames.find? (fun nm => List.isPrefixOf nm.toList s) with
  | none => none
  | some nm =>
    match (s.drop nm.toList.length).dropWhile isWS with
    | '(' :: r2 =>
      match r2.dropWhile (fun c => c != ')') with
      | ')' :: rest => some (nm, r2.takeWhile (fun c => c != ')'), rest)
      | _ => none
    | _ => none

/-- The `findall` scan with explicit fuel (each step consumes at least one
character, so `fuel = s.length` never truncates; see `findallAux_fuel`). -/
def findallAux : ℕ → List Char → List (String × List Char)
  | 0, _ => []
  | _, [] => []
  | fuel + 1, c :: cs =>
    match tryOp (c :: cs) with
    | some (nm, args, rest) => (nm, args) :: findallAux fuel rest
    | none => findallAux fuel cs

/-- Source `_txn_re.findall(t)`: all non-overlapping matches, left to right. -/
def findall (s : List Char) : List (String × List Char) :=
  findallAux s.length s

/-- The matrix contributed by one matched operation, or `none` when the body
raises: a `float()` failure on any token, or the `vals[0]` `IndexError` of the
five operations that read it.  `matrix` with an argument count other than 6
falls through every `elif` to `else: M = I()`. -/
def opResult (trig : Trig) (toNum : String → Option ℚ) (nm : String) (args : List Char) :
    Option Mat3 :=
  match parseVals toNum args with
  | none => none
  | some vals =>
    if nm = "matrix" then
      match vals with
      | [a, b, c, d, e, f] => some (mat a b c d e f)
      | _ => some I
    else if nm = "translate" then
      match vals with
      | [] => none
      | tx :: rest => some (mat 1 0 0 1 tx (rest.headD 0))
    else if nm = "scale" then
      match vals with
      | [] => none
      | sx :: rest => some (mat sx 0 0 (rest.headD sx) 0 0)
    else if nm = "rotate" then
      match vals with
      | [] => none
      | a :: _ =>
        some (mat (trig.cosd a) (trig.sind a) (-trig.sind a) (trig.cosd a) 0 0)
    else if nm = "skewX" then
      match vals with
      | [] => none
      | a :: _ => some ⟨1, trig.tand a, 0, 0, 1, 0, 0, 0, 1⟩
    else if nm = "skewY" then
      match vals with
      | [] => none
      | a :: _ => some ⟨1, 0, 0, trig.tand a, 1, 0, 0, 0, 1⟩
    else some I

/-- The five matched operation names whose body reads `vals[0]`
unconditionally (every recognized name except `matrix`). -/
def argOps : List String := ["translate", "scale", "rotate", "skewX", "skewY"]

/-- The exact condition under which one matched operation raises: some
argument token fails numeric conversion, or an operation that requires a
first argument received an empty argument list. -/
def opRaises (toNum : String → Option ℚ) (nm : String) (args : List Char) : Prop :=
  (∃ tk ∈ tokenize args, toNum tk = none) ∨ (nm ∈ argOps ∧ tokenize args = [])

/-- The `for name, args in _txn_re.findall(t)` loop: `T = mul(T, M)`,
any raise aborts the whole parse. -/
def runOps (trig : Trig) (toNum : String → Option ℚ) :
    Mat3 → List (String × List Char) → Option Mat3
  | T, [] => some T
  | T, (nm, args) :: rest =>
    match opResult trig toNum nm args with
    | none => none
    | some M => runOps trig toNum (mul T M) rest

/-- Source `_parse_transform_attr(t)`: `None` or `""` yield the identity, otherwise
fold the matched operations left to right. -/
def _parse_transform_attr (trig : Trig) (toNum : String → Option ℚ) (t : Option String) :
    Option Mat3 :=
  match t with
  | none => some I
  | some s => if s = "" then some I else runOps trig toNum I (findall s.toList)

/-! ## World transform (source lines 76–86) -/

/-- The `while cur is not None` chain walk: parse each ancestor's `transform`
attribute, closest node first (`chain.append`, then `cur = cur.getparent()`). -/
def parseChain (trig : Trig) (toNum : String → Option ℚ) :
    List (Option String) → Option (List Mat3)
  | [] => some []
  | t :: ts =>
    match _parse_transform_attr trig toNum t with
    | none => none
    | some M => (parseChain trig toNum ts).map (fun Ms => M :: Ms)

/-- Source `world_transform(node)`: the ancestor chain is passed explicitly as the
list of `transform` attribute values from the node up to the root
(closest first); `T = I(); for M in reversed(chain): T = mul(T, M)`. -/
def world_transform (trig : Trig) (toNum : String → Option ℚ)
    (chain : List (Option String)) : Option Mat3 :=
  (parseChain trig toNum chain).map (fun Ms => Ms.reverse.foldl mul I)

/-! ## Sampling (source lines 90–105) -/

/-- An `svgpathtools` parsed path, abstracted: total arc length (`path.length()`),
arc-length-to-parameter lookup (`path.ilength(s)`, `none` models a raised
exception), and parameter-to-point evaluation (`path.point(t)`, the complex
result split into real and imaginary parts). -/
structure Curve where
  length : ℚ
  ilength : ℚ → Option ℚ
  point : ℚ → Pt

/-- Source `n = max(1, int(math.ceil(L / step)))`. -/
def sample_n (L step : ℚ) : ℕ := max 1 (Int.ceil (L / step)).toNat

/-- Source `s = min(i * step, L)`: the arc-length position of sample `i`. -/
def sample_s (L step : ℚ) (i : ℕ) : ℚ := min ((i : ℚ) * step) L

/-- The curve parameter of sample `i`: the `try: t = path.ilength(s)`
with the `except: t = i / n` fallback. -/
def sample_t (path : Curve) (step : ℚ) (n i : ℕ) : ℚ :=
  match path.ilength (sample_s path.length step i) with
  | some t => t
  | none => (i : ℚ) / (n : ℚ)

/-- Source `sample_path_uniform(path, step)`. -/
def sample_path_uniform (path : Curve) (step : ℚ) : List Pt :=
  if path.length ≤ 0 then []
  else
    (List.range (sample_n path.length step + 1)).map
      (fun i => path.point (sample_t path step (sample_n path.length step) i))

/-! ## Gap segmentation (source lines 107–118) -/

/-- Squared Euclidean distance from `p` to `q`. -/
def dist2 (p q : Pt) : ℚ := (q.1 - p.1) ^ 2 + (q.2 - p.2) ^ 2

/-- Source `math.hypot(x - px, y - py) > gap`, expressed on squares (equivalent for
the nonnegative `gap` the program uses, since both sides are nonnegative). -/
def gapExceeded (gap : ℚ) (p q : Pt) : Bool := decide (gap ^ 2 < dist2 p q)

/-- Source `out[-1].append(q)`: append `q` to the last polyline of `out`. -/
def appendLast (out : List (List Pt)) (q : Pt) : List (List Pt) :=
  match out with
  | [] => [[q]]
  | l :: ls => if ls.isEmpty then [l ++ [q]] else l :: appendLast ls q

/-- One iteration of the `for x, y in points[1:]` loop: state is `(out, (px, py))`. -/
def gapStep (gap : ℚ) (st : List (List Pt) × Pt) (q : Pt) : List (List Pt) × Pt :=
  (appendLast (if gapExceeded gap st.2 q then st.1 ++ [[]] else st.1) q, q)

/-- Source `split_on_gaps(points, gap)`: split whenever consecutive distance exceeds
`gap`, then keep only polylines with `len(poly) > 1`. -/
def split_on_gaps (points : List Pt) (gap : ℚ) : List (List Pt) :=
  match points with
  | [] => []
  | p0 :: rest =>
    ((rest.foldl (gapStep gap) ([[p0]], p0)).1).filter (fun poly => decide (1 < poly.length))

/-- Specification-level segmenter, following §4.5 of the spec word for word:
keep a current polyline and the previous point; a distance beyond the
threshold closes the current polyline and starts a new one with the point,
otherwise the point is appended.  (No short-polyline filtering here.) -/
def segmentSpec (gap : ℚ) (prev : Pt) (cur : List Pt) : List Pt → List (List Pt)
  | [] => [cur]
  | q :: qs =>
    if gapExceeded gap prev q then cur :: segmentSpec gap q [q] qs
    else segmentSpec gap q (cur ++ [q]) qs

/-! ## Bounding-box flip (source lines 183–194) -/

/-- Python `min` over a nonempty list. -/
def listMin : List ℚ → ℚ
  | [] => 0
  | x :: xs => xs.foldl min x

/-- Python `max` over a nonempty list. -/
def listMax : List ℚ → ℚ
  | [] => 0
  | x :: xs => xs.foldl max x

/-- Source `(x, maxy - (y - miny))`: flip one point vertically inside `[miny, maxy]`. -/
def flipY (miny maxy : ℚ) (p : Pt) : Pt := (p.1, maxy - (p.2 - miny))

/-- Flip every point of every polyline inside `[miny, maxy]`. -/
def flipPolys (miny maxy : ℚ) (polys : List (List Pt)) : List (List Pt) :=
  polys.map (fun poly => poly.map (flipY miny maxy))

/-- Source `ys = [y for poly in polylines for _, y in poly]`. -/
def glyphYs (polys : List (List Pt)) : List ℚ :=
  (polys.flatMap (fun poly => poly)).map (fun p => p.2)

/-- The `miny` of the glyph's combined bounding box. -/
def glyphMinY (polys : List (List Pt)) : ℚ := listMin (glyphYs polys)

/-- The `maxy` of the glyph's combined bounding box. -/
def glyphMaxY (polys : List (List Pt)) : ℚ := listMax (glyphYs polys)

/-- The final per-glyph normalization (source lines 186–194): flip every point
inside the glyph's own vertical bounding box. -/
def normalizeFlip (polys : List (List Pt)) : List (List Pt) :=
  flipPolys (glyphMinY polys) (glyphMaxY polys) polys

/-! ## Document model and extraction (source lines 158–194) -/

/-- An lxml element: tag, attributes, children.  (Tags are taken without
namespaces, so `local-name()` and `QName(...).localname` are the tag itself.) -/
inductive XNode where
  | mk (tag : String) (attrs : List (String × String)) (children : List XNode) : XNode

/-- The element's tag. -/
def XNode.tag : XNode → String
  | .mk t _ _ => t

/-- The element's children. -/
def XNode.children : XNode → List XNode
  | .mk _ _ cs => cs

/-- Source `node.get(k)`: attribute lookup. -/
def XNode.attr (n : XNode) (k : String) : Option String :=
  match n with
  | .mk _ attrs _ => (attrs.find? (fun kv => kv.1 = k)).map (fun kv => kv.2)

mutual
/-- All proper descendants of a node in document order, each paired with its
ancestor chain (closest first); `anc` is the chain of the node itself. -/
def descChain (anc : List XNode) : XNode → List (XNode × List XNode)
  | .mk tg ats cs => descChainList (XNode.mk tg ats cs :: anc) cs
/-- Document-order walk of a sibling list whose common ancestor chain is `anc`. -/
def descChainList (anc : List XNode) : List XNode → List (XNode × List XNode)
  | [] => []
  | c :: cs => (c, anc) :: (descChain anc c ++ descChainList anc cs)
end

/-- Source `root.xpath(".//*[@id='{letter_id}']")`: every proper descendant of the
root carrying the id, in document order, with its ancestor chain. -/
def findTargets (root : XNode) (idv : String) : List (XNode × List XNode) :=
  (descChain [] root).filter (fun p => p.1.attr "id" = some idv)

/-- The curve-bearing nodes under a holder: descendant `path` elements with a
`d` attribute, else the holder itself if it is such a `path`, else none. -/
def pathNodes (holder : XNode) (tchain : List XNode) : List (XNode × List XNode) :=
  let nodes := (descChain tchain holder).filter
    (fun p => p.1.tag == "path" && (p.1.attr "d").isSome)
  if nodes.isEmpty then
    (if holder.tag == "path" && (holder.attr "d").isSome then [(holder, tchain)] else [])
  else nodes

/-- The body of the `for nd in nodes` loop for one curve node: resolve the
world transform (from the node's explicit ancestor chain), parse and sample
its curve (`parseD` abstracts `svgpathtools.parse_path`), apply the transform
to every sample, and split on gaps. -/
def processNode (trig : Trig) (toNum : String → Option ℚ) (parseD : String → Curve)
    (step gap : ℚ) (p : XNode × List XNode) : Option (List (List Pt)) := do
  let T ← world_transform trig toNum
    ((p.1 :: p.2).map (fun m => XNode.attr m "transform"))
  let pts := (sample_path_uniform (parseD ((p.1.attr "d").getD "")) step).map
    (fun q => apply T q.1 q.2)
  pure (split_on_gaps pts gap)

/-- Per-node processing of the `for nd in nodes` loop followed by the final
flip: concatenate every node's polylines (`polylines.extend(...)`), then flip
the concatenation inside its own bounding box unless it is empty. -/
def processNodes (trig : Trig) (toNum : String → Option ℚ) (parseD : String → Curve)
    (step gap : ℚ) (nodes : List (XNode × List XNode)) : Option (List (List Pt)) :=
  if nodes.isEmpty then some []
  else do
    let polylines ← nodes.foldlM (fun acc p => do
      let polys ← processNode trig toNum parseD step gap p
      pure (acc ++ polys)) []
    pure (if polylines.isEmpty then [] else normalizeFlip polylines)

/-- Source `extract_letter_polylines(root, letter_id, step, gap)`: take `targets[0]`
(after the emptiness check) and process its curve-bearing nodes. -/
def extract_letter_polylines (trig : Trig) (toNum : String → Option ℚ)
    (parseD : String → Curve) (root : XNode) (letter_id : String) (step gap : ℚ) :
    Option (List (List Pt)) :=
  match (findTargets root letter_id).head? with
  | none => some []
  | some (holder, tchain) =>
    processNodes trig toNum parseD step gap (pathNodes holder tchain)

/-- Modelled from the spec: “locate every node carrying that id” and process
them all — the variant of the extractor that gathers the curve-bearing nodes
of every matched target instead of only `targets[0]`.  (Used to compare the
spec's claim against the code.) -/
def extract_all_targets (trig : Trig) (toNum : String → Option ℚ)
    (parseD : String → Curve) (root : XNode) (letter_id : String) (step gap : ℚ) :
    Option (List (List Pt)) :=
  processNodes trig toNum parseD step gap
    ((findTargets root letter_id).flatMap (fun p => pathNodes p.1 p.2))

/-! ## Output assembly (source lines 198–225) -/

/-- One emitted coordinate record: a point row or the `{NAN, NAN}` pen-up row. -/
inductive OutRec where
  | pt (x y : ℚ) : OutRec
  | sep : OutRec
deriving DecidableEq, Repr

/-- The per-glyph emission loop of `write_header`, with its `first` flag:
a `{NAN, NAN}` separator before every polyline except the first, then the
polyline's points. -/
def emitLoop : Bool → List (List Pt) → List OutRec
  | _, [] => []
  | first, poly :: rest =>
    ((if first then [] else [OutRec.sep]) ++ poly.map (fun p => OutRec.pt p.1 p.2))
      ++ emitLoop false rest

/-- All records emitted for one glyph. -/
def glyph_records (polys : List (List Pt)) : List OutRec := emitLoop true polys

/-- Source `count`: the number of point rows written for the glyph. -/
def glyph_count (polys : List (List Pt)) : ℕ := (polys.map List.length).sum

/-- Source `seps = (len(polys) - 1) if len(polys) > 1 else 0`. -/
def glyph_seps (polys : List (List Pt)) : ℕ :=
  if 1 < polys.length then polys.length - 1 else 0

/-- The `{sym}_len` constant: `count + seps`. -/
def glyph_len (polys : List (List Pt)) : ℕ := glyph_count polys + glyph_seps polys

/-- Specification-level assembler (§6 of the spec): the points of the first
polyline, then, for each further polyline, one pen-up separator followed by
its points — no separator before the first or after the last. -/
def assembleSpec : List (List Pt) → List OutRec
  | [] => []
  | [poly] => poly.map (fun p => OutRec.pt p.1 p.2)
  | poly :: next :: rest =>
    poly.map (fun p => OutRec.pt p.1 p.2) ++ OutRec.sep :: assembleSpec (next :: rest)

/-- The point row of a record, if it is one (for stating "all points in order"). -/
def recPt : OutRec → Option Pt
  | .pt x y => some (x, y)
  | .sep => none

/-! ## Concrete instances used to evaluate the pipeline on concrete inputs -/

/-- A trig record for inputs with no `rotate`/`skew` operations. -/
def trigZero : Trig := ⟨fun _ => 0, fun _ => 0, fun _ => 0⟩

/-- An arbitrary injective-on-45 trig record, to exhibit `rotate` behaviour. -/
def trigId : Trig := ⟨fun q => q, fun q => q + 1, fun q => q + 2⟩

/-- A curve of length 100 whose parameter is its arc length. -/
def curve100 : Curve := ⟨100, fun s => some s, fun t => (t, 0)⟩

/-- A curve of length 2 whose arc-length lookup fails exactly at distance 1. -/
def curveFail1 : Curve := ⟨2, fun s => if s = 1 then none else some s, fun t => (t, t)⟩

/-- The transform-attribute chain of the spec's two-level nesting test:
own `scale(2,1)`, parent `translate(10,0)`. -/
def c1chain : List (Option String) := [some "scale(2,1)", some "translate(10,0)"]

/-- A `path` element with id `a` and degenerate curve data. -/
def ceP1 : XNode := .mk "path" [("id", "a"), ("d", "Z")] []

/-- A second `path` element also carrying id `a`, with nonempty curve data. -/
def ceP2 : XNode := .mk "path" [("id", "a"), ("d", "G")] []

/-- A document whose root has two children that both carry id `a`. -/
def ceRoot : XNode := .mk "svg" [] [ceP1, ceP2]

/-- A unit-length horizontal segment whose parameter is its arc length. -/
def curveG : Curve := ⟨1, fun s => some s, fun t => (t, 0)⟩

/-- A zero-length (degenerate) curve. -/
def curveZ : Curve := ⟨0, fun s => some s, fun t => (t, 0)⟩

/-- Curve data for the two-target document: `"G"` is a unit-length segment,
anything else a zero-length curve. -/
def ceParseD : String → Curve := fun d => if d = "G" then curveG else curveZ

/-- A document with no element carrying id `a`. -/
def emptyRoot : XNode := .mk "svg" [] []

/-- A document whose only id-`a` element is a `g` with no curve data. -/
def gRoot : XNode := .mk "svg" [] [.mk "g" [("id", "a")] []]

/-! ## Affine helper lemmas -/

theorem affine_I : affine I := ⟨rfl, rfl, rfl⟩

theorem affine_mul {A B : Mat3} (hA : affine A) (hB : affine B) : affine (mul A B) := by
  obtain ⟨a1, a2, a3⟩ := hA
  obtain ⟨b1, b2, b3⟩ := hB
  refine ⟨?_, ?_, ?_⟩ <;> simp [mul, a1, a2, a3, b1, b2, b3]

theorem apply_mul (A : Mat3) {B : Mat3} (hB : affine B) (x y : ℚ) :
    apply (mul A B) x y = apply A (apply B x y).1 (apply B x y).2 := by
  obtain ⟨b1, b2, b3⟩ := hB
  simp only [apply, mul, b1, b2, b3, Prod.mk.injEq]
  constructor <;> ring

theorem opResult_affine {trig : Trig} {toNum : String → Option ℚ} {nm : String}
    {args : List Char} {M : Mat3} (h : opResult trig toNum nm args = some M) :
    affine M := by
  unfold opResult at h
  repeat' split at h
  all_goals first
    | exact Option.noConfusion h
    | (cases Option.some.inj h; exact ⟨rfl, rfl, rfl⟩)

theorem runOps_affine {trig : Trig} {toNum : String → Option ℚ} :
    ∀ (ops : List (String × List Char)) (T M : Mat3),
      affine T → runOps trig toNum T ops = some M → affine M := by
  intro ops
  induction ops with
  | nil =>
    intro T M hT h
    cases Option.some.inj h
    exact hT
  | cons op rest ih =>
    intro T M hT h
    obtain ⟨nm, args⟩ := op
    unfold runOps at h
    split at h
    · exact Option.noConfusion h
    · rename_i M' hM'
      exact ih _ M (affine_mul hT (opResult_affine hM')) h

theorem parse_transform_affine {trig : Trig} {toNum : String → Option ℚ}
    {t : Option String} {M : Mat3} (h : _parse_transform_attr trig toNum t = some M) :
    affine M := by
  unfold _parse_transform_attr at h
  split at h
  · cases Option.some.inj h; exact affine_I
  · split at h
    · cases Option.some.inj h; exact affine_I
    · exact runOps_affine _ _ _ affine_I h

theorem parseChain_affine {trig : Trig} {toNum : String → Option ℚ} :
    ∀ {chain : List (Option String)} {Ms : List Mat3},
      parseChain trig toNum chain = some Ms → ∀ M ∈ Ms, affine M := by
  intro chain
  induction chain with
  | nil =>
    intro Ms h
    cases Option.some.inj h
    simp
  | cons t ts ih =>
    intro Ms h M hM
    unfold parseChain at h
    split at h
    · exact Option.noConfusion h
    · rename_i M0 hM0
      cases hrec : parseChain trig toNum ts with
      | none => rw [hrec] at h; exact Option.noConfusion h
      | some Ms' =>
        rw [hrec] at h
        cases Option.some.inj h
        rcases List.mem_cons.mp hM with rfl | hM'
        · exact parse_transform_affine hM0
        · exact ih hrec M hM'

theorem foldl_mul_apply (Ms : List Mat3) (haff : ∀ M ∈ Ms, affine M) (p : Pt) :
    apply (Ms.reverse.foldl mul I) p.1 p.2 = Ms.foldl (fun q M => apply M q.1 q.2) p := by
  induction Ms generalizing p with
  | nil => simp [apply, I]
  | cons M Ms ih =>
    rw [List.reverse_cons, List.foldl_append, List.foldl_cons, List.foldl_nil,
      apply_mul _ (haff M (List.mem_cons_self M Ms)) p.1 p.2, List.foldl_cons]
    exact ih (fun N hN => haff N (List.mem_cons_of_mem M hN)) (apply M p.1 p.2)

/-- C1: the resolved world transform composes the chain's local transforms in
root-to-node order, so that applying it to a point applies the node's own
transform first; the chain is given node-first, `Ms` are the parsed local
matrices in the same order, and the resulting composite applied to `(x, y)`
equals the node-first left-to-right application of the `Ms`. -/
theorem world_transform_order (trig : Trig) (toNum : String → Option ℚ)
    (chain : List (Option String)) (Ms : List Mat3) (x y : ℚ)
    (h : parseChain trig toNum chain = some Ms) :
    world_transform trig toNum chain = some (Ms.reverse.foldl mul I)
    ∧ apply (Ms.reverse.foldl mul I) x y =
        Ms.foldl (fun q M => apply M q.1 q.2) (x, y) := by
  constructor
  · rw [world_transform, h]
    rfl
  · simpa using foldl_mul_apply Ms (parseChain_affine h) (x, y)

/-- C1 witness: own `scale(2,1)` under parent `translate(10,0)` resolves to
`mat 2 0 0 1 10 0`, which maps `(1, 0)` to `(12, 0)`. -/
theorem world_transform_order_witness :
    world_transform trigZero pyFloat c1chain = some (mat 2 0 0 1 10 0)
    ∧ apply (mat 2 0 0 1 10 0) 1 0 = ((12 : ℚ), (0 : ℚ)) := by
  obtain ⟨h1, h2⟩ := world_transform_order trigZero pyFloat c1chain
    [mul I (mat 2 0 0 1 0 0), mul I (mat 1 0 0 1 10 0)] 1 0 (by rfl)
  constructor
  · rw [h1]
    norm_num [mul, mat, I, Mat3.mk.injEq]
  · norm_num [apply, mat, Prod.ext_iff]

/-! ## Sampler lemmas (C2, C9) -/

theorem sample_n_eq_ceil {L step : ℚ} (hL : 0 < L) (hs : 0 < step) :
    sample_n L step = (⌈L / step⌉).toNat := by
  have hceil : 0 < ⌈L / step⌉ := Int.ceil_pos.mpr (div_pos hL hs)
  unfold sample_n
  omega

theorem sample_get {path : Curve} {step : ℚ} (h : ¬path.length ≤ 0) {i : ℕ}
    (hi : i < sample_n path.length step + 1) :
    (sample_path_uniform path step)[i]? =
      some (path.point (sample_t path step (sample_n path.length step) i)) := by
  unfold sample_path_uniform
  rw [if_neg h, List.getElem?_map, List.getElem?_range hi]
  rfl

/-- C2: for a curve of positive length `L` and positive `step`, the sampler
produces exactly `⌈L/step⌉ + 1` points; the first sample is taken at
arc-length position `0` and the last at position exactly `L`; a curve of
nonpositive length yields the empty sequence. -/
theorem sample_count_endpoints (path : Curve) (step : ℚ) :
    (0 < path.length → 0 < step →
      (sample_path_uniform path step).length = (⌈path.length / step⌉).toNat + 1
      ∧ sample_s path.length step 0 = 0
      ∧ sample_s path.length step (sample_n path.length step) = path.length
      ∧ (sample_path_uniform path step)[0]? =
          some (path.point (sample_t path step (sample_n path.length step) 0))
      ∧ (sample_path_uniform path step)[sample_n path.length step]? =
          some (path.point (sample_t path step (sample_n path.length step)
            (sample_n path.length step))))
    ∧ (path.length ≤ 0 → sample_path_uniform path step = []) := by
  constructor
  · intro hL hs
    have hnot : ¬path.length ≤ 0 := not_le.mpr hL
    have hn := sample_n_eq_ceil hL hs
    have hceil : 0 < ⌈path.length / step⌉ := Int.ceil_pos.mpr (div_pos hL hs)
    refine ⟨?_, ?_, ?_, ?_, ?_⟩
    · unfold sample_path_uniform
      rw [if_neg hnot]
      simp [hn]
    · unfold sample_s
      simpa using min_eq_left hL.le
    · unfold sample_s
      refine min_eq_right ?_
      have hcast : ((sample_n path.length step : ℕ) : ℚ) = ((⌈path.length / step⌉ : ℤ) : ℚ) := by
        rw [hn]
        exact_mod_cast congrArg (fun z : ℤ => (z : ℚ)) (Int.toNat_of_nonneg hceil.le)
      rw [hcast]
      calc path.length = path.length / step * step := by field_simp
        _ ≤ ((⌈path.length / step⌉ : ℤ) : ℚ) * step := by
            exact mul_le_mul_of_nonneg_right (Int.le_ceil _) hs.le
    · exact sample_get hnot (Nat.succ_pos _)
    · exact sample_get hnot (Nat.lt_succ_self _)
  · intro hL
    unfold sample_path_uniform
    rw [if_pos hL]

/-- C2 witness: length 100, step 7 gives exactly 16 samples, the first at
arc-length 0 and the last at arc-length exactly 100. -/
theorem sample_count_endpoints_witness :
    (sample_path_uniform curve100 7).length = 16
    ∧ sample_s curve100.length 7 0 = 0
    ∧ sample_s curve100.length 7 (sample_n curve100.length 7) = 100 := by
  obtain ⟨hlen, hs0, hsn, -, -⟩ :=
    (sample_count_endpoints curve100 7).1 (by norm_num [curve100]) (by norm_num)
  refine ⟨?_, hs0, hsn⟩
  rw [hlen]
  norm_num [curve100]
  rw [show ⌈(100 : ℚ) / 7⌉ = 15 from by rw [Int.ceil_eq_iff]; norm_num]
  rfl

/-- C9: when the arc-length lookup fails at sample `i`, the parameter for that
sample alone falls back to `i / n`; when it succeeds the looked-up parameter is
used; and every index of the sample sequence is populated regardless (the
whole curve's sampling never aborts). -/
theorem sample_fallback_per_sample (path : Curve) (step : ℚ) (i : ℕ) :
    (path.ilength (sample_s path.length step i) = none →
      sample_t path step (sample_n path.length step) i =
        (i : ℚ) / ((sample_n path.length step : ℕ) : ℚ))
    ∧ (∀ t, path.ilength (sample_s path.length step i) = some t →
        sample_t path step (sample_n path.length step) i = t)
    ∧ (0 < path.length → i < sample_n path.length step + 1 →
        (sample_path_uniform path step)[i]? =
          some (path.point (sample_t path step (sample_n path.length step) i))) := by
  refine ⟨?_, ?_, ?_⟩
  · intro h
    unfold sample_t
    rw [h]
  · intro t h
    unfold sample_t
    rw [h]
  · intro hL hi
    exact sample_get (not_le.mpr hL) hi

/-- C9 witness: a length-2 curve whose lookup fails exactly at arc length 1,
sampled with step 1: sample 1 falls back to parameter `1/2` and is still
produced (the point `(1/2, 1/2)`), while samples 0 and 2 use the lookup. -/
theorem sample_fallback_per_sample_witness :
    sample_t curveFail1 1 (sample_n curveFail1.length 1) 1 =
      1 / ((sample_n curveFail1.length 1 : ℕ) : ℚ)
    ∧ (sample_path_uniform curveFail1 1)[1]? = some (curveFail1.point
        (sample_t curveFail1 1 (sample_n curveFail1.length 1) 1))
    ∧ sample_t curveFail1 1 (sample_n curveFail1.length 1) 0 = 0
    ∧ sample_t curveFail1 1 (sample_n curveFail1.length 1) 2 = 2 := by
  have h2 : sample_n curveFail1.length 1 = 2 := by
    rw [show curveFail1.length = 2 from rfl, sample_n_eq_ceil (by norm_num) (by norm_num)]
    rw [show ⌈(2 : ℚ) / 1⌉ = 2 from by norm_num]
    rfl
  have hfail : curveFail1.ilength (sample_s curveFail1.length 1 1) = none := by
    show (if sample_s 2 1 1 = 1 then none else some (sample_s 2 1 1)) = none
    rw [if_pos]
    show min ((1 : ℚ) * 1) 2 = 1
    norm_num
  have h := sample_fallback_per_sample curveFail1 1 1
  refine ⟨h.1 hfail, h.2.2 (by norm_num [curveFail1]) (by rw [h2]; norm_num), ?_, ?_⟩
  · refine (sample_fallback_per_sample curveFail1 1 0).2.1 0 ?_
    show (if sample_s 2 1 0 = 1 then none else some (sample_s 2 1 0)) = some 0
    rw [if_neg] <;> simp [sample_s]
  · refine (sample_fallback_per_sample curveFail1 1 2).2.1 2 ?_
    show (if sample_s 2 1 2 = 1 then none else some (sample_s 2 1 2)) = some 2
    rw [if_neg] <;> simp [sample_s]

/-! ## Segmentation lemmas (C3, C10) -/

theorem appendLast_snoc (out : List (List Pt)) (x : List Pt) (q : Pt) :
    appendLast (out ++ [x]) q = out ++ [x ++ [q]] := by
  induction out with
  | nil => rfl
  | cons a as ih =>
    have hne : ((as ++ [x]).isEmpty) = false := by simp
    simp [appendLast, hne, ih]

theorem appendLast_snoc2 (out : List (List Pt)) (x y : List Pt) (q : Pt) :
    appendLast (out ++ [x, y]) q = out ++ [x, y ++ [q]] := by
  simpa using appendLast_snoc (out ++ [x]) y q

theorem foldl_gapStep_eq (gap : ℚ) (l : List Pt) :
    ∀ (out0 : List (List Pt)) (cur : List Pt) (prev : Pt),
      (l.foldl (gapStep gap) (out0 ++ [cur], prev)).1 = out0 ++ segmentSpec gap prev cur l := by
  induction l with
  | nil => intro out0 cur prev; simp [segmentSpec]
  | cons q qs ih =>
    intro out0 cur prev
    rw [List.foldl_cons]
    cases h : gapExceeded gap prev q with
    | true =>
      have hstep : gapStep gap (out0 ++ [cur], prev) q = ((out0 ++ [cur]) ++ [[q]], q) := by
        simp [gapStep, h, appendLast_snoc2]
      rw [hstep, ih]
      simp [segmentSpec, h]
    | false =>
      have hstep : gapStep gap (out0 ++ [cur], prev) q = (out0 ++ [cur ++ [q]], q) := by
        simp [gapStep, h, appendLast_snoc]
      rw [hstep, ih]
      simp [segmentSpec, h]

theorem split_on_gaps_eq_spec (p0 : Pt) (rest : List Pt) (gap : ℚ) :
    split_on_gaps (p0 :: rest) gap =
      (segmentSpec gap p0 [p0] rest).filter (fun poly => decide (1 < poly.length)) := by
  have h := foldl_gapStep_eq gap rest [] [p0] p0
  simp only [List.nil_append] at h
  simp only [split_on_gaps]
  rw [h]

theorem gapEx1 : gapExceeded 10 ((0 : ℚ), (0 : ℚ)) (1, 0) = false := by
  rw [gapExceeded, decide_eq_false_iff_not]
  norm_num [dist2]

theorem gapEx2 : gapExceeded 10 ((1 : ℚ), (0 : ℚ)) (50, 0) = true := by
  rw [gapExceeded, decide_eq_true_eq]
  norm_num [dist2]

theorem gapEx3 : gapExceeded 10 ((50 : ℚ), (0 : ℚ)) (51, 0) = false := by
  rw [gapExceeded, decide_eq_false_iff_not]
  norm_num [dist2]

/-- Concrete evaluation of the spec's segmentation test case. -/
theorem split_example :
    split_on_gaps [((0 : ℚ), (0 : ℚ)), (1, 0), (50, 0), (51, 0)] 10 =
      [[(0, 0), (1, 0)], [(50, 0), (51, 0)]] := by
  rw [split_on_gaps_eq_spec]
  simp [segmentSpec, gapEx1, gapEx2, gapEx3, -Prod.mk_zero_zero]

/-- C3: segmentation starts at the first point, closes the current polyline
exactly when the distance to the predecessor strictly exceeds the threshold
(i.e. it refines the literal spec-level segmenter followed by dropping
polylines shorter than 2), the empty input yields the empty output, and the
spec's concrete example yields exactly its two polylines. -/
theorem split_on_gaps_correct (points : List Pt) (gap : ℚ) (hgap : 0 < gap) :
    split_on_gaps points gap =
      (match points with
       | [] => []
       | p0 :: rest =>
         (segmentSpec gap p0 [p0] rest).filter (fun poly => decide (1 < poly.length)))
    ∧ split_on_gaps ([] : List Pt) gap = []
    ∧ split_on_gaps [((0 : ℚ), (0 : ℚ)), (1, 0), (50, 0), (51, 0)] 10 =
        [[(0, 0), (1, 0)], [(50, 0), (51, 0)]] := by
  refine ⟨?_, rfl, split_example⟩
  cases points with
  | nil => rfl
  | cons p0 rest => exact split_on_gaps_eq_spec p0 rest gap

/-- C3 witness: the concrete segmentation example, via the theorem. -/
theorem split_on_gaps_correct_witness :
    split_on_gaps [((0 : ℚ), (0 : ℚ)), (1, 0), (50, 0), (51, 0)] 10 =
      [[(0, 0), (1, 0)], [(50, 0), (51, 0)]]
    ∧ split_on_gaps ([] : List Pt) 10 = [] :=
  ⟨(split_on_gaps_correct [] 10 (by norm_num)).2.2,
   (split_on_gaps_correct [] 10 (by norm_num)).2.1⟩

theorem segmentSpec_join (gap : ℚ) (l : List Pt) :
    ∀ (prev : Pt) (cur : List Pt), (segmentSpec gap prev cur l).flatten = cur ++ l := by
  induction l with
  | nil => intro prev cur; simp [segmentSpec]
  | cons q qs ih =>
    intro prev cur
    cases h : gapExceeded gap prev q with
    | true => simp [segmentSpec, h, ih]
    | false => simp [segmentSpec, h, ih]

theorem join_mem_infix {α : Type} :
    ∀ (cs : List (List α)) (c : List α), c ∈ cs →
      ∃ pre post, cs.flatten = pre ++ c ++ post := by
  intro cs
  induction cs with
  | nil => intro c hc; simp at hc
  | cons a as ih =>
    intro c hc
    rcases List.mem_cons.mp hc with rfl | hc'
    · exact ⟨[], as.flatten, by simp⟩
    · obtain ⟨pre, post, hp⟩ := ih c hc'
      exact ⟨a ++ pre, post, by simp [hp]⟩

theorem segmentSpec_chain (gap : ℚ) (l : List Pt) :
    ∀ (prev : Pt) (cur : List Pt), cur ≠ [] → cur.getLast? = some prev →
      List.Chain' (fun a b => dist2 a b ≤ gap ^ 2) cur →
      ∀ c ∈ segmentSpec gap prev cur l, List.Chain' (fun a b => dist2 a b ≤ gap ^ 2) c := by
  induction l with
  | nil =>
    intro prev cur _ _ hch c hc
    simp [segmentSpec] at hc
    subst hc
    exact hch
  | cons q qs ih =>
    intro prev cur hne hlast hch c hc
    cases h : gapExceeded gap prev q with
    | true =>
      simp only [segmentSpec, h, if_pos] at hc
      rcases List.mem_cons.mp hc with rfl | hc'
      · exact hch
      · exact ih q [q] (by simp) (by simp) (by simp) c hc'
    | false =>
      simp only [segmentSpec, h, Bool.false_eq_true, if_neg, not_false_iff] at hc
      refine ih q (cur ++ [q]) (by simp) (List.getLast?_concat _) ?_ c hc
      rw [List.chain'_append]
      refine ⟨hch, List.chain'_singleton q, ?_⟩
      intro x hx y hy
      simp only [List.head?_cons, Option.mem_def, Option.some.injEq] at hy
      subst hy
      rw [hlast] at hx
      simp only [Option.mem_def, Option.some.injEq] at hx
      cases hx
      exact not_lt.mp (by simpa [gapExceeded, decide_eq_false_iff_not] using h)

/-- C10: every polyline the segmenter returns is a contiguous run of the input
sequence in input order, and consecutive points within a returned polyline are
at (squared Euclidean) distance at most the (squared) gap threshold. -/
theorem split_on_gaps_invariants (points : List Pt) (gap : ℚ) (hgap : 0 < gap) :
    ∀ poly ∈ split_on_gaps points gap,
      (∃ pre post, points = pre ++ poly ++ post)
      ∧ List.Chain' (fun a b => dist2 a b ≤ gap ^ 2) poly := by
  intro poly hp
  cases points with
  | nil => simp [split_on_gaps] at hp
  | cons p0 rest =>
    rw [split_on_gaps_eq_spec] at hp
    have hmem : poly ∈ segmentSpec gap p0 [p0] rest := (List.mem_filter.mp hp).1
    constructor
    · obtain ⟨pre, post, hdecomp⟩ := join_mem_infix _ poly hmem
      refine ⟨pre, post, ?_⟩
      rw [← hdecomp, segmentSpec_join]
      rfl
    · exact segmentSpec_chain gap rest p0 [p0] (by simp) (by simp) (by simp) poly hmem

/-- C10 witness: in the concrete example with threshold 10, the returned
polyline `[(0,0),(1,0)]` is a contiguous run of the input and its consecutive
points are within the threshold. -/
theorem split_on_gaps_invariants_witness :
    (∃ pre post,
      ([((0 : ℚ), (0 : ℚ)), (1, 0), (50, 0), (51, 0)] : List Pt) =
        pre ++ [((0 : ℚ), (0 : ℚ)), (1, 0)] ++ post)
    ∧ List.Chain' (fun a b => dist2 a b ≤ (10 : ℚ) ^ 2) [((0 : ℚ), (0 : ℚ)), (1, 0)] := by
  refine split_on_gaps_invariants _ 10 (by norm_num) [((0 : ℚ), (0 : ℚ)), (1, 0)] ?_
  rw [split_example]
  simp

/-! ## Flip lemmas (C4) -/

theorem flipY_invol (miny maxy : ℚ) (p : Pt) :
    flipY miny maxy (flipY miny maxy p) = p := by
  obtain ⟨x, y⟩ := p
  simp only [flipY, Prod.mk.injEq]
  exact ⟨trivial, by ring⟩

/-- C4: the bounding-box vertical flip `y ↦ maxY - (y - minY)` is an
involution: flipping all points twice with the same (unchanged) bounds
reproduces them exactly; in particular re-flipping the extractor's normalized
glyph with its own bounding box restores the glyph. -/
theorem flip_involution (polys : List (List Pt)) :
    (∀ miny maxy : ℚ, flipPolys miny maxy (flipPolys miny maxy polys) = polys)
    ∧ flipPolys (glyphMinY polys) (glyphMaxY polys) (normalizeFlip polys) = polys := by
  have h : ∀ miny maxy : ℚ, flipPolys miny maxy (flipPolys miny maxy polys) = polys := by
    intro miny maxy
    simp [flipPolys, List.map_map, Function.comp_def, flipY_invol]
  exact ⟨h, h _ _⟩

/-! ## Assembler lemmas (C8) -/

theorem emitLoop_false_eq (polys : List (List Pt)) (hne : polys ≠ []) :
    emitLoop false polys = OutRec.sep :: assembleSpec polys := by
  induction polys with
  | nil => cases hne rfl
  | cons p rest ih =>
    cases rest with
    | nil => simp [emitLoop, assembleSpec]
    | cons nxt rest2 =>
      rw [emitLoop, ih (by simp)]
      simp [assembleSpec]

theorem glyph_records_eq_spec (polys : List (List Pt)) :
    glyph_records polys = assembleSpec polys := by
  cases polys with
  | nil => rfl
  | cons p rest =>
    rw [glyph_records, emitLoop]
    cases rest with
    | nil => simp [emitLoop, assembleSpec]
    | cons nxt rest2 =>
      rw [emitLoop_false_eq _ (by simp)]
      simp [assembleSpec]

theorem filterMap_recPt_map (l : List Pt) :
    (l.map (fun p => OutRec.pt p.1 p.2)).filterMap recPt = l := by
  induction l with
  | nil => rfl
  | cons p ps ih => simp [recPt, ih]

theorem sep_not_mem_map (l : List Pt) :
    OutRec.sep ∉ l.map (fun p => OutRec.pt p.1 p.2) := by
  simp

theorem assembleSpec_points (polys : List (List Pt)) :
    (assembleSpec polys).filterMap recPt = polys.flatten := by
  induction polys with
  | nil => rfl
  | cons p rest ih =>
    cases rest with
    | nil =>
      simp only [assembleSpec]
      rw [filterMap_recPt_map]
      simp
    | cons nxt rest2 =>
      rw [assembleSpec]
      simp only [List.filterMap_append, List.filterMap_cons, recPt, filterMap_recPt_map]
      rw [ih]
      simp

theorem assembleSpec_sep_count (polys : List (List Pt)) :
    (assembleSpec polys).count OutRec.sep = polys.length - 1 := by
  induction polys with
  | nil => rfl
  | cons p rest ih =>
    cases rest with
    | nil =>
      simp [assembleSpec, List.count_eq_zero]
    | cons nxt rest2 =>
      rw [assembleSpec]
      rw [List.count_append, List.count_cons]
      rw [ih]
      have h0 : (p.map (fun p => OutRec.pt p.1 p.2)).count OutRec.sep = 0 :=
        List.count_eq_zero.mpr (sep_not_mem_map p)
      rw [h0]
      simp

theorem glyph_len_formula (polys : List (List Pt)) (hne : polys ≠ []) :
    glyph_len polys = glyph_count polys + (polys.length - 1) := by
  cases polys with
  | nil => cases hne rfl
  | cons p rest =>
    unfold glyph_len glyph_seps
    split <;> simp_all

/-- C8: for a glyph with at least one polyline the assembler emits all points
of all polylines in order with exactly one pen-up separator between
consecutive polylines (none before the first or after the last) — i.e. the
emitted records equal the pairwise-interspersed spec assembly, their point
rows in order are the concatenation of the polylines, the separator count is
the number of polylines minus one — and the recorded per-glyph length is the
total point count plus the number of polylines minus one. -/
theorem write_header_records (polys : List (List Pt)) (hne : polys ≠ []) :
    glyph_records polys = assembleSpec polys
    ∧ (glyph_records polys).filterMap recPt = polys.flatten
    ∧ (glyph_records polys).count OutRec.sep = polys.length - 1
    ∧ glyph_len polys = glyph_count polys + (polys.length - 1) := by
  refine ⟨glyph_records_eq_spec polys, ?_, ?_, glyph_len_formula polys hne⟩
  · rw [glyph_records_eq_spec]
    exact assembleSpec_points polys
  · rw [glyph_records_eq_spec]
    exact assembleSpec_sep_count polys

/-- C8 witness: a two-polyline outline of two points each is emitted as
4 point rows with exactly one separator between the polylines, and its
recorded length is 5. -/
theorem write_header_records_witness :
    glyph_records [[((0 : ℚ), (0 : ℚ)), (1, 1)], [((2 : ℚ), (2 : ℚ)), (3, 3)]] =
      [OutRec.pt 0 0, OutRec.pt 1 1, OutRec.sep, OutRec.pt 2 2, OutRec.pt 3 3]
    ∧ glyph_len [[((0 : ℚ), (0 : ℚ)), (1, 1)], [((2 : ℚ), (2 : ℚ)), (3, 3)]] = 5 := by
  have h := write_header_records
    [[((0 : ℚ), (0 : ℚ)), (1, 1)], [((2 : ℚ), (2 : ℚ)), (3, 3)]] (by simp)
  refine ⟨?_, ?_⟩
  · rw [h.1]
    rfl
  · rw [h.2.2.2]
    rfl

/-! ## Parser failure characterization (C6, C7) -/

theorem mapFloat_eq_none_iff (toNum : String → Option ℚ) (tks : List String) :
    mapFloat toNum tks = none ↔ ∃ tk ∈ tks, toNum tk = none := by
  induction tks with
  | nil => simp [mapFloat]
  | cons tk tks ih =>
    simp only [mapFloat]
    cases h : toNum tk with
    | none => simp [h]
    | some v => simp [h, Option.map_eq_none', ih]

theorem mapFloat_some_length (toNum : String → Option ℚ) :
    ∀ {tks : List String} {vals : List ℚ},
      mapFloat toNum tks = some vals → vals.length = tks.length := by
  intro tks
  induction tks with
  | nil =>
    intro vals h
    cases Option.some.inj h
    rfl
  | cons tk tks ih =>
    intro vals h
    simp only [mapFloat] at h
    cases htk : toNum tk with
    | none => rw [htk] at h; exact Option.noConfusion h
    | some v =>
      rw [htk] at h
      cases hrec : mapFloat toNum tks with
      | none => rw [hrec] at h; exact Option.noConfusion h
      | some vs =>
        rw [hrec] at h
        cases Option.some.inj h
        simp [ih hrec]

theorem opResult_some_iff (trig : Trig) (toNum : String → Option ℚ) (nm : String)
    (args : List Char) (vals : List ℚ) (hv : parseVals toNum args = some vals) :
    (opResult trig toNum nm args = none) ↔ (nm ∈ argOps ∧ vals = []) := by
  unfold opResult
  rw [hv]
  by_cases h1 : nm = "matrix"
  · subst h1
    simp only [if_pos rfl]
    constructor
    · intro hc
      exfalso
      rcases vals with _ | ⟨a, _ | ⟨b, _ | ⟨c, _ | ⟨d, _ | ⟨e, _ | ⟨f, _ | ⟨g, t⟩⟩⟩⟩⟩⟩⟩ <;>
        simp at hc
    · rintro ⟨hmem, -⟩
      simp [argOps] at hmem
  · simp only [if_neg h1]
    by_cases h2 : nm = "translate"
    · subst h2
      simp only [if_pos rfl]
      cases vals <;> simp [argOps]
    · simp only [if_neg h2]
      by_cases h3 : nm = "scale"
      · subst h3
        simp only [if_pos rfl]
        cases vals <;> simp [argOps]
      · simp only [if_neg h3]
        by_cases h4 : nm = "rotate"
        · subst h4
          simp only [if_pos rfl]
          cases vals <;> simp [argOps]
        · simp only [if_neg h4]
          by_cases h5 : nm = "skewX"
          · subst h5
            simp only [if_pos rfl]
            cases vals <;> simp [argOps]
          · simp only [if_neg h5]
            by_cases h6 : nm = "skewY"
            · subst h6
              simp only [if_pos rfl]
              cases vals <;> simp [argOps]
            · simp only [if_neg h6]
              simp [argOps, h2, h3, h4, h5, h6]

theorem opResult_eq_none_iff (trig : Trig) (toNum : String → Option ℚ) (nm : String)
    (args : List Char) :
    opResult trig toNum nm args = none ↔ opRaises toNum nm args := by
  cases hv : parseVals toNum args with
  | none =>
    have hex := (mapFloat_eq_none_iff toNum (tokenize args)).mp hv
    constructor
    · intro _
      exact Or.inl hex
    · intro _
      unfold opResult
      rw [hv]
  | some vals =>
    rw [opResult_some_iff trig toNum nm args vals hv]
    have hv' : mapFloat toNum (tokenize args) = some vals := hv
    have hnoTk : ¬∃ tk ∈ tokenize args, toNum tk = none := fun hex =>
      Option.noConfusion
        (hv'.symm.trans ((mapFloat_eq_none_iff toNum (tokenize args)).mpr hex))
    have hlen : vals.length = (tokenize args).length := mapFloat_some_length toNum hv'
    unfold opRaises
    constructor
    · rintro ⟨hmem, hnil⟩
      refine Or.inr ⟨hmem, ?_⟩
      have hz : (tokenize args).length = 0 := by rw [← hlen, hnil]; rfl
      exact List.length_eq_zero.mp hz
    · rintro (hex | ⟨hmem, htok⟩)
      · exact absurd hex hnoTk
      · refine ⟨hmem, ?_⟩
        have hz : vals.length = 0 := by rw [hlen, htok]; rfl
        exact List.length_eq_zero.mp hz

theorem runOps_eq_none_iff (trig : Trig) (toNum : String → Option ℚ) :
    ∀ (ops : List (String × List Char)) (T : Mat3),
      (runOps trig toNum T ops = none ↔ ∃ p ∈ ops, opResult trig toNum p.1 p.2 = none) := by
  intro ops
  induction ops with
  | nil => intro T; simp [runOps]
  | cons op rest ih =>
    intro T
    obtain ⟨nm, args⟩ := op
    rw [runOps]
    cases h : opResult trig toNum nm args with
    | none => simp [h]
    | some M => simp [h, ih]

theorem tryOp_name_mem {s : List Char} {nm : String} {args rest : List Char}
    (h : tryOp s = some (nm, args, rest)) : nm ∈ txnNames := by
  unfold tryOp at h
  split at h
  · exact Option.noConfusion h
  · rename_i nm' hf
    split at h
    · split at h
      · have h' := Option.some.inj h
        injection h' with ha hrest
        exact ha ▸ List.mem_of_find?_eq_some hf
      · exact Option.noConfusion h
    · exact Option.noConfusion h

theorem findallAux_names : ∀ (fuel : ℕ) (s : List Char) (p : String × List Char),
    p ∈ findallAux fuel s → p.1 ∈ txnNames := by
  intro fuel
  induction fuel with
  | zero => intro s p hp; simp [findallAux] at hp
  | succ n ih =>
    intro s p hp
    cases s with
    | nil => simp [findallAux] at hp
    | cons c cs =>
      rw [findallAux] at hp
      split at hp
      · rename_i nm args rest h
        rcases List.mem_cons.mp hp with rfl | hp'
        · exact tryOp_name_mem h
        · exact ih rest p hp'
      · rename_i h
        exact ih cs p hp

theorem findall_names (s : List Char) (p : String × List Char) (hp : p ∈ findall s) :
    p.1 ∈ txnNames :=
  findallAux_names s.length s p hp

/-- C6 (amended): an absent or empty transform string parses to the identity;
only the six recognized operation names are ever matched (anything else is
skipped, contributing nothing); and the parse raises exactly when some matched
operation raises — that is, some argument token of a recognized operation
fails numeric conversion, or a recognized operation other than `matrix` has an
empty argument list. -/
theorem parse_transform_failure (trig : Trig) (toNum : String → Option ℚ) :
    _parse_transform_attr trig toNum none = some I
    ∧ _parse_transform_attr trig toNum (some "") = some I
    ∧ (∀ t : String, ∀ p ∈ findall t.toList, p.1 ∈ txnNames)
    ∧ (∀ t : String,
        (_parse_transform_attr trig toNum (some t) = none ↔
          ∃ p ∈ findall t.toList, opRaises toNum p.1 p.2)) := by
  refine ⟨rfl, rfl, fun t => findall_names t.toList, ?_⟩
  intro t
  by_cases ht : t = ""
  · subst ht
    constructor
    · intro hc
      exact absurd hc (by simp [_parse_transform_attr])
    · rintro ⟨p, hp, -⟩
      simp [findall, findallAux] at hp
  · simp only [_parse_transform_attr]
    rw [if_neg ht, runOps_eq_none_iff]
    constructor
    · rintro ⟨p, hp, hnone⟩
      exact ⟨p, hp, (opResult_eq_none_iff trig toNum p.1 p.2).mp hnone⟩
    · rintro ⟨p, hp, hraise⟩
      exact ⟨p, hp, (opResult_eq_none_iff trig toNum p.1 p.2).mpr hraise⟩

/-- C6 counterexample: `translate()` raises (`IndexError` on `vals[0]`)
although its argument list contains no token at all — so no "non-numeric
required numeric argument token" exists, refuting the claim's "fails if and
only if a required numeric argument token is non-numeric". -/
theorem parse_raises_counterexample :
    _parse_transform_attr trigZero pyFloat (some "translate()") = none
    ∧ (∀ p ∈ findall "translate()".toList, ∀ tk ∈ tokenize p.2, pyFloat tk ≠ none)
    ∧ findall "translate()".toList = [("translate", [])] := by
  refine ⟨rfl, ?_, rfl⟩
  decide

/-- C6 witness: the absent attribute parses to the identity; the operation
matched in `scale(2,1)` bears a recognized name; and `translate()` satisfies
the raise characterization concretely. -/
theorem parse_transform_failure_witness :
    _parse_transform_attr trigZero pyFloat none = some I
    ∧ ("scale", "2,1".toList) ∈ findall "scale(2,1)".toList
    ∧ "scale" ∈ txnNames
    ∧ _parse_transform_attr trigZero pyFloat (some "translate()") = none := by
  have h := parse_transform_failure trigZero pyFloat
  refine ⟨h.1, by decide,
    h.2.2.1 "scale(2,1)" ("scale", "2,1".toList) (by decide), ?_⟩
  exact (h.2.2.2 "translate()").mpr ⟨("translate", []), by decide, Or.inr ⟨by decide, rfl⟩⟩

/-- C7: a matched `rotate` with at least one argument contributes the rotation
about the origin by its first argument; any further (pivot) arguments leave
the matrix unchanged, and the translation entries are 0 (no pivot rotation is
ever performed). -/
theorem rotate_ignores_pivot (trig : Trig) (toNum : String → Option ℚ)
    (args : List Char) (a : ℚ) (vs : List ℚ)
    (h : parseVals toNum args = some (a :: vs)) :
    opResult trig toNum "rotate" args =
      some (mat (trig.cosd a) (trig.sind a) (-trig.sind a) (trig.cosd a) 0 0) := by
  unfold opResult
  rw [h]
  rfl

/-- C7 witness: `rotate` with pivot arguments `45 7 9` yields exactly the
origin rotation matrix for angle 45. -/
theorem rotate_ignores_pivot_witness :
    parseVals pyFloat "45 7 9".toList = some [45, 7, 9]
    ∧ opResult trigId pyFloat "rotate" "45 7 9".toList =
        some (mat (trigId.cosd 45) (trigId.sind 45) (-trigId.sind 45) (trigId.cosd 45) 0 0) := by
  have hpv : parseVals pyFloat "45 7 9".toList = some [45, 7, 9] := by decide
  exact ⟨hpv, rotate_ignores_pivot trigId pyFloat _ 45 [7, 9] hpv⟩

/-! ## Extraction lemmas (C5) -/

theorem mul_I_left (M : Mat3) : mul I M = M := by
  cases M
  simp [mul, I]

theorem world_none_none :
    world_transform trigZero pyFloat [none, none] = some I := by
  show some (([I, I].reverse).foldl mul I) = some I
  simp [mul_I_left]

theorem sampleG_eval : sample_path_uniform curveG 1 = [((0 : ℚ), (0 : ℚ)), (1, 0)] := by
  have hn : sample_n curveG.length 1 = 1 := by
    rw [show curveG.length = (1 : ℚ) from rfl, sample_n_eq_ceil (by norm_num) (by norm_num)]
    norm_num
  unfold sample_path_uniform
  rw [if_neg (by rw [show curveG.length = (1 : ℚ) from rfl]; norm_num), hn]
  rw [show List.range (1 + 1) = [0, 1] from rfl, List.map_cons, List.map_cons, List.map_nil]
  have ht0 : sample_t curveG 1 1 0 = 0 := by
    show sample_s curveG.length 1 0 = 0
    show min ((0 : ℕ) * (1 : ℚ)) curveG.length = 0
    rw [show curveG.length = (1 : ℚ) from rfl]
    norm_num
  have ht1 : sample_t curveG 1 1 1 = 1 := by
    show sample_s curveG.length 1 1 = 1
    show min ((1 : ℕ) * (1 : ℚ)) curveG.length = 1
    rw [show curveG.length = (1 : ℚ) from rfl]
    norm_num
  rw [ht0, ht1]
  rfl

theorem splitG_eval :
    split_on_gaps [((0 : ℚ), (0 : ℚ)), (1, 0)] 10 = [[(0, 0), (1, 0)]] := by
  rw [split_on_gaps_eq_spec]
  simp [segmentSpec, gapEx1, -Prod.mk_zero_zero]

theorem flipG_eval :
    normalizeFlip [[((0 : ℚ), (0 : ℚ)), (1, 0)]] = [[((0 : ℚ), (0 : ℚ)), (1, 0)]] := by
  unfold normalizeFlip glyphMinY glyphMaxY glyphYs
  norm_num [listMin, listMax, flipPolys, flipY, -Prod.mk_zero_zero]

theorem processNode_P1 :
    processNode trigZero pyFloat ceParseD 1 10 (ceP1, [ceRoot]) = some [] := by
  unfold processNode
  rw [show ((ceP1 :: [ceRoot]).map (fun m => XNode.attr m "transform")) = [none, none]
    from rfl]
  rw [world_none_none]
  show some (split_on_gaps ((sample_path_uniform (ceParseD ((ceP1.attr "d").getD "")) 1).map
    (fun q => apply I q.1 q.2)) 10) = some []
  rw [show ceParseD ((ceP1.attr "d").getD "") = curveZ from rfl]
  rfl

theorem processNode_P2 :
    processNode trigZero pyFloat ceParseD 1 10 (ceP2, [ceRoot]) =
      some [[((0 : ℚ), (0 : ℚ)), (1, 0)]] := by
  unfold processNode
  rw [show ((ceP2 :: [ceRoot]).map (fun m => XNode.attr m "transform")) = [none, none]
    from rfl]
  rw [world_none_none]
  show some (split_on_gaps ((sample_path_uniform (ceParseD ((ceP2.attr "d").getD "")) 1).map
    (fun q => apply I q.1 q.2)) 10) = some [[((0 : ℚ), (0 : ℚ)), (1, 0)]]
  rw [show ceParseD ((ceP2.attr "d").getD "") = curveG from rfl, sampleG_eval]
  rw [show ([((0 : ℚ), (0 : ℚ)), (1, 0)].map (fun q => apply I q.1 q.2)) =
    [((0 : ℚ), (0 : ℚ)), (1, 0)] from by simp [apply, I]]
  rw [splitG_eval]

/-- C5 (amended): glyph extraction searches the root's proper descendants for
nodes carrying the id and processes only the first match — its result depends
only on the first matched node (and chain); when no node carries the id, or
the matched node bears no curve data, it returns an empty outline rather than
failing. -/
theorem extract_first_target_only (trig : Trig) (toNum : String → Option ℚ)
    (parseD : String → Curve) (root root' : XNode) (idv : String) (step gap : ℚ) :
    (findTargets root idv = [] →
      extract_letter_polylines trig toNum parseD root idv step gap = some [])
    ∧ ((findTargets root idv).head? = (findTargets root' idv).head? →
        extract_letter_polylines trig toNum parseD root idv step gap =
          extract_letter_polylines trig toNum parseD root' idv step gap)
    ∧ (∀ holder tchain, (findTargets root idv).head? = some (holder, tchain) →
        pathNodes holder tchain = [] →
        extract_letter_polylines trig toNum parseD root idv step gap = some []) := by
  refine ⟨?_, ?_, ?_⟩
  · intro h
    unfold extract_letter_polylines
    rw [h]
    rfl
  · intro h
    unfold extract_letter_polylines
    rw [h]
  · intro holder tchain hh hn
    unfold extract_letter_polylines
    rw [hh]
    show processNodes trig toNum parseD step gap (pathNodes holder tchain) = some []
    rw [hn]
    rfl

/-- C5 witness: a document with no id-`a` node yields the empty outline, and a
document whose only id-`a` node is a curve-less `g` also yields the empty
outline. -/
theorem extract_first_target_only_witness :
    extract_letter_polylines trigZero pyFloat ceParseD emptyRoot "a" 1 10 = some []
    ∧ extract_letter_polylines trigZero pyFloat ceParseD gRoot "a" 1 10 = some [] := by
  refine ⟨(extract_first_target_only trigZero pyFloat ceParseD emptyRoot emptyRoot
    "a" 1 10).1 rfl, ?_⟩
  exact (extract_first_target_only trigZero pyFloat ceParseD gRoot gRoot "a" 1 10).2.2
    (XNode.mk "g" [("id", "a")] []) [gRoot] rfl rfl

/-- C5 counterexample: in a document whose root has two children both carrying
id `a`, the extractor processes only the first (degenerate) one and returns an
empty outline, while the spec-modelled process-every-matching-node variant
returns the second node's polyline — refuting "locates every node in the
document carrying that id and processes them all". -/
theorem extract_first_only_counterexample :
    extract_letter_polylines trigZero pyFloat ceParseD ceRoot "a" 1 10 = some []
    ∧ extract_all_targets trigZero pyFloat ceParseD ceRoot "a" 1 10 =
        some [[((0 : ℚ), (0 : ℚ)), (1, 0)]]
    ∧ extract_letter_polylines trigZero pyFloat ceParseD ceRoot "a" 1 10 ≠
        extract_all_targets trigZero pyFloat ceParseD ceRoot "a" 1 10 := by
  have h1 : extract_letter_polylines trigZero pyFloat ceParseD ceRoot "a" 1 10 = some [] := by
    unfold extract_letter_polylines
    rw [show (findTargets ceRoot "a").head? = some (ceP1, [ceRoot]) from rfl]
    show processNodes trigZero pyFloat ceParseD 1 10 (pathNodes ceP1 [ceRoot]) = some []
    rw [show pathNodes ceP1 [ceRoot] = [(ceP1, [ceRoot])] from rfl]
    unfold processNodes
    rw [if_neg (by simp)]
    simp only [List.foldlM_cons, List.foldlM_nil, processNode_P1, Option.bind_eq_bind,
      Option.some_bind]
    rfl
  have h2 : extract_all_targets trigZero pyFloat ceParseD ceRoot "a" 1 10 =
      some [[((0 : ℚ), (0 : ℚ)), (1, 0)]] := by
    unfold extract_all_targets
    rw [show ((findTargets ceRoot "a").flatMap (fun p => pathNodes p.1 p.2)) =
      [(ceP1, [ceRoot]), (ceP2, [ceRoot])] from rfl]
    unfold processNodes
    rw [if_neg (by simp)]
    simp only [List.foldlM_cons, List.foldlM_nil, processNode_P1, processNode_P2,
      Option.bind_eq_bind, Option.some_bind]
    simp [flipG_eval, -Prod.mk_zero_zero]
  refine ⟨h1, h2, ?_⟩
  rw [h1, h2]
  simp

/-! ## Adequacy of the fuelled scanner: `fuel = s.length` never truncates -/

theorem tryOp_rest_length {s : List Char} {nm : String} {args rest : List Char}
    (h : tryOp s = some (nm, args, rest)) : rest.length < s.length := by
  unfold tryOp at h
  split at h
  · exact Option.noConfusion h
  · rename_i nm' hf
    split at h
    · rename_i r2 h1
      split at h
      · rename_i rest' h2
        have h' := Option.some.inj h
        injection h' with ha hrest
        injection hrest with hb hc
        subst hc
        have a1 : (r2.dropWhile (fun c => c != ')')).length ≤ r2.length :=
          (List.dropWhile_sublist _).length_le
        rw [h2] at a1
        have a2 : ((List.drop nm'.toList.length s).dropWhile isWS).length = r2.length + 1 := by
          rw [h1]
          rfl
        have a3 : ((List.drop nm'.toList.length s).dropWhile isWS).length ≤
            (List.drop nm'.toList.length s).length :=
          (List.dropWhile_sublist _).length_le
        have a4 : (List.drop nm'.toList.length s).length ≤ s.length := by
          rw [List.length_drop]
          omega
        simp only [List.length_cons] at a1
        omega
      · exact Option.noConfusion h
    · exact Option.noConfusion h

theorem findallAux_stable : ∀ (fuel : ℕ) (s : List Char), s.length ≤ fuel →
    findallAux (fuel + 1) s = findallAux fuel s := by
  intro fuel
  induction fuel with
  | zero =>
    intro s hs
    rw [List.length_eq_zero.mp (Nat.le_zero.mp hs)]
    rfl
  | succ n ih =>
    intro s hs
    cases s with
    | nil => rfl
    | cons c cs =>
      rw [findallAux, findallAux]
      split
      · rename_i nm args rest h
        rw [ih rest (by
          have hlt := tryOp_rest_length h
          simp only [List.length_cons] at hlt hs
          omega)]
      · rename_i h
        rw [ih cs (by simpa using Nat.le_of_succ_le_succ hs)]

/-- With at least `s.length` fuel the scan is fuel-independent, so `findall`
(which uses exactly `s.length`) computes the untruncated fixpoint. -/
theorem findallAux_fuel (fuel : ℕ) (s : List Char) (h : s.length ≤ fuel) :
    findallAux fuel s = findall s := by
  induction fuel, h using Nat.le_induction with
  | base => rfl
  | succ n hn ih => rw [findallAux_stable n s hn, ih]

end Plotter
